import Mathlib

/-!
Verification of the metrics-computation engine of the scholarly-metrics
analytics repository (`assets/app_functions.py` and `utils/data_processing.py`).

The engine's pandas/numpy code is shallowly embedded as follows.

* A record batch (DataFrame) becomes a `Frame`: a list of rows plus Boolean
  flags recording which columns are present.
* A raw citation cell becomes `CitCell`: numeric, or non-numeric/NaN (which
  `pd.to_numeric(..., errors='coerce').fillna(0)` coerces to 0).  Numeric
  values are rationals (`ℚ`), exact for the integer and decimal values the
  program manipulates.
* A `publication_date` cell becomes `DateCell`: either still a raw
  (string/number) cell, or already a datetime cell, each carrying the year
  that `pd.to_datetime(..., errors='coerce')` resolves it to (`none` for
  NaT/unparseable).  The in-place coercion
  `df['publication_date'] = pd.to_datetime(...)` turns every raw cell into
  a datetime cell — a genuine value change for string-dated input.
  `df.groupby('year')` drops NaN keys and sorts the rest.
* The derived columns that `analyze_publications_by_time` assigns into its
  input (`year`, `years_since_publication`, `citation_velocity`) are
  carried in the frame as optional columns of per-row values, so that the
  assignments overwrite any existing values rather than merely marking the
  columns present.
* The raw `authors` cell is the actual comma-delimited string (`none` = NaN);
  Python's `split(',')` and `str.strip()` are re-implemented character by
  character (`charSplit`, `pyStrip`).
* Functions that can raise a Python exception return `Except String`;
  `analyze_publications_by_time` additionally returns the (possibly
  partially) mutated input frame, since the mutation of `df` happens before
  the point that can raise.
* For the similarity ranker, each text field is modelled as its token list
  after `CountVectorizer` tokenization and stop-word removal; cosine
  similarity over count vectors is compared through its square, which is an
  exact rational and induces the same ordering (all similarities are
  non-negative).  `np.argsort` is modelled as the stable ascending sort by
  (value, index): NumPy's default sort runs a stable insertion sort on
  arrays below its 16-element cutoff, which covers the batches considered
  in the concrete theorems.
-/

namespace ImpactSpark

/-- Decidable equality for `Except`, so that concrete runs of the fallible
engine functions can be checked by `decide`. -/
instance {ε α : Type} [DecidableEq ε] [DecidableEq α] : DecidableEq (Except ε α) := fun x y =>
  match x, y with
  | .ok a, .ok b =>
    if h : a = b then .isTrue (congrArg Except.ok h)
    else .isFalse (fun hc => h (Except.ok.inj hc))
  | .error a, .error b =>
    if h : a = b then .isTrue (congrArg Except.error h)
    else .isFalse (fun hc => h (Except.error.inj hc))
  | .ok _, .error _ => .isFalse (fun hc => Except.noConfusion hc)
  | .error _, .ok _ => .isFalse (fun hc => Except.noConfusion hc)

/-- A raw cell of the `citations` column: a numeric value, or a
non-numeric/missing value (which pandas coercion turns into 0). -/
inductive CitCell where
  | num (q : ℚ)
  | nonnum
  deriving DecidableEq, Repr

/-- Coercion `pd.to_numeric(x, errors='coerce')` followed by `.fillna(0)`. -/
def coerceCell : CitCell → ℚ
  | .num q => q
  | .nonnum => 0

/-- A cell of the `publication_date` column.  `raw y` is a cell that has not
been through `pd.to_datetime` yet (a string or similar), `ts y` a cell that
already holds a datetime value; in both cases `y` is the year that
`pd.to_datetime(..., errors='coerce')` resolves the cell to (`none` = NaT).
The in-place coercion maps `raw y` to `ts y` (a value/dtype change) and is
the identity on `ts y`. -/
inductive DateCell where
  | raw (y : Option Int)
  | ts (y : Option Int)
  deriving DecidableEq, Repr

/-- The year a `publication_date` cell resolves to. -/
def yearOf : DateCell → Option Int
  | .raw y => y
  | .ts y => y

/-- One row of the record batch.  `authors` is the raw comma-delimited
author string (`none` = NaN). -/
structure Row where
  citations : CitCell
  pubDate : DateCell
  authors : Option String
  deriving DecidableEq, Repr

/-- A record batch: the rows together with flags recording which input
columns the DataFrame has, plus the derived columns that
`analyze_publications_by_time` assigns into its input, carried as optional
per-row value lists (`none` = column absent).  `year` and
`years_since_publication` cells are NaN (`none`) for rows without a
parseable date, and so are `citation_velocity` cells. -/
structure Frame where
  rows : List Row
  hasCitations : Bool
  hasPubDate : Bool
  hasAuthors : Bool
  yearCol : Option (List (Option Int))
  yearsSinceCol : Option (List (Option Int))
  velocityCol : Option (List (Option ℚ))
  deriving DecidableEq, Repr

/-- Sorting `df['citations'].sort_values(ascending=False)`: sort descending. -/
def sortDesc (l : List ℚ) : List ℚ := l.insertionSort (· ≥ ·)

/-- Ascending sort (used inside `np.percentile` and `np.median`). -/
def sortAsc (l : List ℚ) : List ℚ := l.insertionSort (· ≤ ·)

/-- The count `sum(citation_counts >= np.arange(1, len(citation_counts) + 1))`:
walk the list with a 1-based rank counter, counting every position whose
value is at least its rank (the h-index of `calculate_impact_metrics`,
applied to the sorted-descending counts). -/
def countSat : List ℚ → ℕ → ℕ
  | [], _ => 0
  | c :: cs, i => (if (i : ℚ) ≤ c then 1 else 0) + countSat cs (i + 1)

/-- The g-index loop of `calculate_impact_metrics`: accumulate the running
sum over the sorted-descending counts and stop at the first rank `i` whose
cumulative sum is below `i*i`; the result is the last successful rank, and
the successful ranks are consecutive from 1, so it equals the length of the
maximal prefix of successful ranks. -/
def gIndexAux : List ℚ → ℕ → ℚ → ℕ
  | [], _, _ => 0
  | c :: cs, i, cum =>
    if ((i * i : ℕ) : ℚ) ≤ cum + c then 1 + gIndexAux cs (i + 1) (cum + c) else 0

/-- The h-index loop of `calculate_metrics` in `utils/data_processing.py`:
`for i, cite in enumerate(sorted_cites): if cite >= i + 1: h = i + 1 else:
break`.  The successful ranks are consecutive from 1, so the final `h` is
the length of the maximal satisfying prefix. -/
def hLoopAux : List ℚ → ℕ → ℕ
  | [], _ => 0
  | c :: cs, i => if (i : ℚ) ≤ c then 1 + hLoopAux cs (i + 1) else 0

/-- The fixed percentile list `[10, 25, 50, 75, 90, 95, 99]`. -/
def percList : List ℚ := [10, 25, 50, 75, 90, 95, 99]

/-- Linear interpolation into the ascending-sorted data at fractional
position `pos` (the core of `np.percentile` with the default 'linear'
method): the value at index `floor(pos)` plus the fractional part times the
gap to the next index, with indices clamped to the last element. -/
def interpAt (s : List ℚ) (pos : ℚ) : ℚ :=
  let n := s.length
  let i : ℕ := (Int.floor pos).toNat
  let lo := s.getD (min i (n - 1)) 0
  let hi := s.getD (min (i + 1) (n - 1)) 0
  lo + (pos - (i : ℚ)) * (hi - lo)

/-- The percentile `np.percentile(data, p)` with the default linear interpolation:
virtual index `p/100 * (n-1)` into the ascending-sorted data. -/
def npPercentile (l : List ℚ) (p : ℚ) : ℚ :=
  interpAt (sortAsc l) (p * ((l.length : ℚ) - 1) / 100)

/-- The median of a list of rationals (the `'median'` aggregation of
`citations_by_year`). -/
def medianQ (l : List ℚ) : ℚ :=
  let s := sortAsc l
  let n := s.length
  if n % 2 = 1 then s.getD (n / 2) 0
  else (s.getD (n / 2 - 1) 0 + s.getD (n / 2) 0) / 2

/-- The coerced citation vector `df['citations']` that
`calculate_impact_metrics` computes with: cell values coerced to numbers
when the column exists, an all-zero column otherwise. -/
def citVec (f : Frame) : List ℚ :=
  f.rows.map (fun r => if f.hasCitations then coerceCell r.citations else 0)

/-- The in-place effect of lines 33-36 of `calculate_impact_metrics` on its
input DataFrame: `df['citations'] = 0` when the column is missing, else
`df['citations'] = pd.to_numeric(df['citations'], errors='coerce').fillna(0)`. -/
def coerceFrame (f : Frame) : Frame :=
  { f with
    hasCitations := true
    rows := f.rows.map (fun r =>
      { r with citations :=
          CitCell.num (if f.hasCitations then coerceCell r.citations else 0) }) }

/-- The result dictionary of `calculate_impact_metrics`. -/
structure Metrics where
  total_publications : ℕ
  total_citations : ℚ
  avg_citations : ℚ
  h_index : ℕ
  i10_index : ℕ
  g_index : ℕ
  citation_percentiles : List (ℚ × ℚ)
  deriving DecidableEq, Repr

/-- The all-zero result returned for an empty batch. -/
def zeroMetrics : Metrics :=
  { total_publications := 0, total_citations := 0, avg_citations := 0,
    h_index := 0, i10_index := 0, g_index := 0, citation_percentiles := [] }

/-- The function `calculate_impact_metrics(df)` of `assets/app_functions.py`.
Returns the metrics dictionary together with the (mutated) input frame. -/
def calculate_impact_metrics (f : Frame) : Metrics × Frame :=
  if f.rows.isEmpty then (zeroMetrics, f)
  else
    let v := citVec f
    let counts := sortDesc v
    ({ total_publications := f.rows.length
       total_citations := v.sum
       avg_citations := v.sum / (f.rows.length : ℚ)
       h_index := countSat counts 1
       i10_index := counts.countP (fun c => decide (10 ≤ c))
       g_index := gIndexAux counts 1 0
       citation_percentiles := percList.map (fun p => (p, npPercentile v p)) },
     coerceFrame f)

/-- The result dictionary of `calculate_metrics` in `utils/data_processing.py`. -/
structure BasicMetrics where
  total_publications : ℕ
  total_citations : ℚ
  avg_citations : ℚ
  h_index : ℕ
  deriving DecidableEq, Repr

/-- The all-zero result of `calculate_metrics` for an empty batch. -/
def zeroBasicMetrics : BasicMetrics :=
  { total_publications := 0, total_citations := 0, avg_citations := 0, h_index := 0 }

/-- The function `calculate_metrics(df)` of `utils/data_processing.py`, taking the
`citations` column of its input directly (the only data it reads; the batch
is empty exactly when the column is empty). -/
def calculate_metrics (cites : List ℚ) : BasicMetrics :=
  if cites.isEmpty then zeroBasicMetrics
  else
    { total_publications := cites.length
      total_citations := cites.sum
      avg_citations := cites.sum / (cites.length : ℚ)
      h_index := hLoopAux (sortDesc cites) 1 }

/-- A frame holding just a citations column (one numeric cell per row). -/
def frameOfCits (l : List ℚ) : Frame :=
  { rows := l.map (fun q =>
      { citations := .num q, pubDate := .raw none, authors := none })
    hasCitations := true, hasPubDate := false, hasAuthors := false
    yearCol := none, yearsSinceCol := none, velocityCol := none }

/-! ### Temporal aggregator -/

/-- First-occurrence deduplication with an accumulator of already-seen
elements. -/
def dedupFirstAux {α : Type} [DecidableEq α] (seen : List α) : List α → List α
  | [] => []
  | x :: xs =>
    if x ∈ seen then dedupFirstAux seen xs
    else x :: dedupFirstAux (x :: seen) xs

/-- First-occurrence deduplication (insertion order of `dict` keys in
Python, and the distinct keys of a groupby before sorting). -/
def dedupFirst {α : Type} [DecidableEq α] (l : List α) : List α :=
  dedupFirstAux [] l

/-- The number of occurrences of `y` in `l` (group size for key `y`). -/
def countEq (y : Int) (l : List Int) : ℕ := l.countP (fun z => decide (z = y))

/-- Ascending sort on integers (pandas sorts groupby keys). -/
def sortAscZ (l : List Int) : List Int := l.insertionSort (· ≤ ·)

/-- The sorted distinct year keys of `df.groupby('year')` (NaN years are
already dropped from the input list). -/
def groupKeys (ys : List Int) : List Int := sortAscZ (dedupFirst ys)

/-- The parseable years of the batch, one per row that has one
(`df['publication_date'].dt.year`, minus the NaT rows). -/
def yearsOf (f : Frame) : List Int := f.rows.filterMap (fun r => yearOf r.pubDate)

/-- The rows belonging to year group `y`. -/
def rowsOfYear (f : Frame) (y : Int) : List Row :=
  f.rows.filter (fun r => decide (yearOf r.pubDate = some y))

/-- The result dictionary of `analyze_publications_by_time`:
`publications_by_year` maps year to count; `citations_by_year` maps year to
(sum, mean, median) of citations; `citation_velocity` maps year to the mean
of per-row `citations / max(1, current_year - year)`. -/
structure TimeResult where
  publications_by_year : List (Int × ℕ)
  citations_by_year : List (Int × ℚ × ℚ × ℚ)
  citation_velocity : List (Int × ℚ)
  deriving DecidableEq, Repr

/-- The empty result returned when the batch is empty or has no
`publication_date` column. -/
def emptyTimeResult : TimeResult :=
  { publications_by_year := [], citations_by_year := [], citation_velocity := [] }

/-- The in-place coercion
`df['publication_date'] = pd.to_datetime(df['publication_date'], errors='coerce')`:
every date cell becomes a datetime cell holding its resolved year. -/
def coerceDates (f : Frame) : List Row :=
  f.rows.map (fun r => { r with pubDate := DateCell.ts (yearOf r.pubDate) })

/-- The values written by `df['year'] = df['publication_date'].dt.year`:
the per-row resolved year (NaN for NaT rows). -/
def yearColOf (f : Frame) : List (Option Int) :=
  f.rows.map (fun r => yearOf r.pubDate)

/-- The values written by
`df['years_since_publication'] = current_year - df['year']`. -/
def yearsSinceColOf (currentYear : Int) (f : Frame) : List (Option Int) :=
  f.rows.map (fun r => (yearOf r.pubDate).map (fun y => currentYear - y))

/-- The values written by `df['citation_velocity'] =
df['citations'] / df['years_since_publication'].clip(lower=1)` (NaN for
rows whose year is NaN). -/
def velocityColOf (currentYear : Int) (f : Frame) : List (Option ℚ) :=
  f.rows.map (fun r => (yearOf r.pubDate).map (fun y =>
    coerceCell r.citations / ((max 1 (currentYear - y) : Int) : ℚ)))

/-- The result dictionary values of `analyze_publications_by_time`
(computed from the coerced dates; resolving a year commutes with the
coercion, so they are computed from the input rows directly). -/
def timeResultOf (currentYear : Int) (f : Frame) : TimeResult :=
  { publications_by_year := (groupKeys (yearsOf f)).map
      (fun y => (y, countEq y (yearsOf f)))
    citations_by_year := (groupKeys (yearsOf f)).map (fun y =>
      let cs := (rowsOfYear f y).map (fun r => coerceCell r.citations)
      (y, cs.sum, cs.sum / (cs.length : ℚ), medianQ cs))
    citation_velocity := (groupKeys (yearsOf f)).map (fun y =>
      let vs := (rowsOfYear f y).map (fun r =>
        coerceCell r.citations / ((max 1 (currentYear - y) : Int) : ℚ))
      (y, vs.sum / (vs.length : ℚ))) }

/-- The function `analyze_publications_by_time(df)` of
`assets/app_functions.py`.  `currentYear` stands for `datetime.now().year`.
The function mutates its input before the point that can raise, so it
returns the possibly-failed result together with the frame as mutated so
far: the date coercion (line 99) and the `year` assignment (line 102)
happen first; when the batch is non-empty and has a `publication_date`
column but no `citations` column, `df.groupby('year')['citations']` (line
108) then raises a KeyError, before the `years_since_publication` and
`citation_velocity` assignments (lines 114-115).  Each assignment
overwrites any existing values of its column.  Citation cells reaching the
aggregations are taken as their numeric values (`coerceCell` is the
identity on the numeric cells the normalized schema provides). -/
def analyze_publications_by_time (currentYear : Int) (f : Frame) :
    Except String TimeResult × Frame :=
  if f.rows.isEmpty || !f.hasPubDate then (.ok emptyTimeResult, f)
  else if !f.hasCitations then
    (.error "KeyError: citations",
     { f with rows := coerceDates f, yearCol := some (yearColOf f) })
  else
    (.ok (timeResultOf currentYear f),
     { f with rows := coerceDates f, yearCol := some (yearColOf f), yearsSinceCol := some (yearsSinceColOf currentYear f), velocityCol := some (velocityColOf currentYear f) })

/-- The per-year publication counts produced by
`analyze_publications_by_time` (empty when the call raises). -/
def pubsByYearOf (currentYear : Int) (f : Frame) : List (Int × ℕ) :=
  match (analyze_publications_by_time currentYear f).1 with
  | .ok r => r.publications_by_year
  | .error _ => []

/-- The number of records with a parseable `publication_date`. -/
def parseableCount (f : Frame) : ℕ :=
  if f.hasPubDate then (yearsOf f).length else 0

/-! ### Author analyzer -/

/-- Python's `str.split(sep)` for a single-character separator, on the
character list of the string: every occurrence of the separator starts a
new chunk and the separators are dropped. -/
def charSplit (sep : Char) : List Char → List (List Char)
  | [] => [[]]
  | c :: cs =>
    let r := charSplit sep cs
    if c = sep then [] :: r
    else (c :: r.headD []) :: r.tail

/-- Python's `str.strip()`: drop leading and trailing whitespace. -/
def pyStrip (s : List Char) : List Char :=
  ((s.dropWhile Char.isWhitespace).reverse.dropWhile Char.isWhitespace).reverse

/-- The list `[author.strip() for author in s.split(',')]`. -/
def splitCommas (s : String) : List String :=
  (charSplit ',' s.data).map (fun t => String.mk (pyStrip t))

/-- The split-and-trimmed author tokens of a row; rows whose `authors` cell
is NaN or the empty string are skipped entirely. -/
def rawTokens (r : Row) : List String :=
  match r.authors with
  | none => []
  | some s => if s = "" then [] else splitCommas s

/-- The author tokens actually used to build `author_papers`
(the `if author:` test drops empty tokens). -/
def tokensOf (r : Row) : List String :=
  (rawTokens r).filter (fun t => decide (t ≠ ""))

/-- The list `author_papers[a]`: every row is appended once per occurrence of `a` in
its token list, in row order (a name repeated inside one record's list adds
that record twice). -/
def papersOf (f : Frame) (a : String) : List Row :=
  (f.rows.map (fun r => List.replicate ((tokensOf r).count a) r)).flatten

/-- The keys of the `author_papers` dict, in first-occurrence order. -/
def authorKeys (f : Frame) : List String :=
  dedupFirst ((f.rows.map tokensOf).flatten)

/-- One row of the `author_impact` table. -/
structure AuthorStat where
  author : String
  paper_count : ℕ
  citations : ℚ
  avg_citations : ℚ
  h_index : ℕ
  deriving DecidableEq, Repr

/-- The per-author impact row computed from the author's paper list
(citation sum, mean, and the same h-index algorithm as
`calculate_impact_metrics`). -/
def authorStat (a : String) (ps : List Row) : AuthorStat :=
  let cs := ps.map (fun r => coerceCell r.citations)
  { author := a, paper_count := ps.length, citations := cs.sum,
    avg_citations := cs.sum / (cs.length : ℚ),
    h_index := countSat (sortDesc cs) 1 }

/-- The `author_metrics` list: authors in key order, skipping those with
fewer than 2 papers. -/
def authorMetrics (f : Frame) : List AuthorStat :=
  (authorKeys f).filterMap (fun a =>
    let ps := papersOf f a
    if ps.length < 2 then none else some (authorStat a ps))

/-- All in-order position pairs `(l[i], l[j])` with `i < j` of a list (the
double loop `for i, author1 in enumerate(paper_authors): for author2 in
paper_authors[i+1:]`). -/
def orderedPairs {α : Type} : List α → List (α × α)
  | [] => []
  | x :: xs => xs.map (fun y => (x, y)) ++ orderedPairs xs

/-- The total increment that the pairwise double loop over one record's
filtered author list contributes to matrix cell `(a, b)`: each position
pair increments both `(author1, author2)` and `(author2, author1)`. -/
def pairContrib (l : List String) (a b : String) : ℕ :=
  ((orderedPairs l).map (fun p =>
    (if p.1 = a ∧ p.2 = b then 1 else 0) +
    (if p.1 = b ∧ p.2 = a then 1 else 0))).sum

/-- The final value of collaboration-matrix cell `(a, b)` after the loop
over all records, each record's author list filtered to the significant
authors. -/
def collabCount (f : Frame) (sig : List String) (a b : String) : ℕ :=
  (f.rows.map (fun r =>
    pairContrib ((rawTokens r).filter (fun t => decide (t ∈ sig))) a b)).sum

/-- The result of `analyze_authors`: the `author_impact` table, and the
collaboration matrix given as its index (the significant authors, in
order) plus its rows. -/
structure AuthorResult where
  author_impact : List AuthorStat
  collab_index : List String
  author_collaborations : List (List ℕ)
  deriving DecidableEq, Repr

/-- The significant authors:
`author_impact[author_impact['paper_count'] >= 2]['author'].tolist()`. -/
def significant (f : Frame) : List String :=
  ((authorMetrics f).filter (fun s => decide (2 ≤ s.paper_count))).map
    (fun s => s.author)

/-- The function `analyze_authors(df)` of `assets/app_functions.py`.  When the batch is
non-empty with an `authors` column but no author reaches 2 papers,
`author_metrics` is empty, so `pd.DataFrame([])` has no columns and
`author_impact['paper_count']` raises a KeyError. -/
def analyze_authors (f : Frame) : Except String AuthorResult :=
  if f.rows.isEmpty || !f.hasAuthors then .ok ⟨[], [], []⟩
  else if (authorMetrics f).isEmpty then .error "KeyError: paper_count"
  else .ok ⟨authorMetrics f, significant f,
    (significant f).map (fun a =>
      (significant f).map (fun b => collabCount f (significant f) a b))⟩

/-- The collaboration matrix returned by `analyze_authors` (empty when the
call raises or returns the empty result). -/
def collabOf (f : Frame) : List (List ℕ) :=
  match analyze_authors f with
  | .ok r => r.author_collaborations
  | .error _ => []

/-- Entry `(i, j)` of a matrix given as a list of rows (0 outside). -/
def matEntry (m : List (List ℕ)) (i j : ℕ) : ℕ := (m.getD i []).getD j 0

/-! ### Similarity ranker -/

/-- One row of the batch as seen by `find_similar_papers`: each text field
is its token list after tokenization and stop-word removal (`none` = NaN). -/
structure SimRow where
  abstract : Option (List String)
  title : Option (List String)
  keywords : Option (List String)
  deriving DecidableEq, Repr

/-- The record batch for `find_similar_papers`, with column-presence flags. -/
structure SimFrame where
  rows : List SimRow
  hasAbstract : Bool
  hasTitle : Bool
  hasKeywords : Bool
  deriving DecidableEq, Repr

/-- Dot product of the term-count vectors of two token lists over the
shared vocabulary: sum over the distinct terms of `u` of
`count_u(term) * count_v(term)` (terms absent from `u` contribute 0). -/
def dotTok (u v : List String) : ℕ :=
  ((dedupFirst u).map (fun w => u.count w * v.count w)).sum

/-- The square of the cosine similarity of two documents, as an exact
rational: `dot(t,v)^2 / (dot(t,t) * dot(v,v))` — `mkRat` returns 0 when the
denominator is 0, i.e. when either vector is zero, which is sklearn's
convention for zero vectors.  All cosine similarities here are
non-negative, so comparing squares is the same as comparing the
similarities themselves, ties included. -/
def simSq (t v : List String) : ℚ :=
  mkRat ((dotTok t v : Int) ^ 2) (dotTok t t * dotTok v v)

/-- The document of a row: concatenation of its present text fields, in
feature order (abstract, title, keywords), restricted to the usable
features. -/
def docOf (useA useT useK : Bool) (r : SimRow) : List String :=
  (if useA then r.abstract.getD [] else []) ++
  (if useT then r.title.getD [] else []) ++
  (if useK then r.keywords.getD [] else [])

/-- The argsort `np.argsort` (ascending) as the stable sort of indices by value:
sort the (value, index) pairs lexicographically and keep the indices. -/
def argsortAsc (l : List ℚ) : List ℕ :=
  (((List.range l.length).map (fun i => (l.getD i 0, i))).insertionSort
    (fun p q => p.1 < q.1 ∨ (p.1 = q.1 ∧ p.2 ≤ q.2))).map (fun p => p.2)

/-- The function `find_similar_papers(df, target_paper_index, n)` of
`assets/app_functions.py`, returning the positions of the returned rows
(`df.iloc[similar_indices]`).  The result indices are
`np.argsort(similarities[target])[::-1][1:n+1]`: reverse the ascending
argsort of the target's similarity row, drop the first position, keep `n`.
`CountVectorizer.fit_transform` raises when every document is empty after
tokenization (empty vocabulary). -/
def find_similar_papers (f : SimFrame) (target n : ℕ) : Except String (List ℕ) :=
  if f.rows.length ≤ 1 then .ok []
  else
    let useA := f.hasAbstract && f.rows.any (fun r => r.abstract.isSome)
    let useT := f.hasTitle && f.rows.any (fun r => r.title.isSome)
    let useK := f.hasKeywords && f.rows.any (fun r => r.keywords.isSome)
    if !useA && !useT && !useK then .ok []
    else
      let docs := f.rows.map (docOf useA useT useK)
      if docs.flatten.isEmpty then .error "ValueError: empty vocabulary"
      else
        let sims := docs.map (fun d => simSq (docs.getD target []) d)
        .ok (((argsortAsc sims).reverse.drop 1).take n)

/-- The maximum of a list of rationals (0 for the empty list; only used on
non-empty lists). -/
def listMax : List ℚ → ℚ
  | [] => 0
  | x :: xs => xs.foldl max x

/-! ### Concrete record batches used in the closed theorems -/

/-- A batch of three records whose first two have identical text ("aa") and
whose third is different ("bb"); only the `title` column is usable. -/
def simFrameDup : SimFrame :=
  { rows := [{ abstract := none, title := some ["aa"], keywords := none },
             { abstract := none, title := some ["aa"], keywords := none },
             { abstract := none, title := some ["bb"], keywords := none }],
    hasAbstract := false, hasTitle := true, hasKeywords := false }

/-- A one-record batch whose citation cell is non-numeric. -/
def frameNonNum : Frame :=
  { rows := [{ citations := .nonnum, pubDate := .raw none, authors := none }],
    hasCitations := true, hasPubDate := false, hasAuthors := false,
    yearCol := none, yearsSinceCol := none, velocityCol := none }

/-- A one-record batch with a parseable 2020 publication date and 3 citations. -/
def frameOneDated : Frame :=
  { rows := [{ citations := .num 3, pubDate := .raw (some 2020), authors := none }],
    hasCitations := true, hasPubDate := true, hasAuthors := false,
    yearCol := none, yearsSinceCol := none, velocityCol := none }

/-- A two-record batch in which author A appears twice in the first
record's author list ("A, A, B") and once in the second ("A, B"). -/
def frameDupAuthor : Frame :=
  { rows := [{ citations := .num 0, pubDate := .raw none, authors := some "A, A, B" },
             { citations := .num 0, pubDate := .raw none, authors := some "A, B" }],
    hasCitations := true, hasPubDate := false, hasAuthors := true,
    yearCol := none, yearsSinceCol := none, velocityCol := none }

/-- A two-record batch crediting the pair of authors A and B twice, with no
repetition inside either record's list. -/
def frameTwoAuthors : Frame :=
  { rows := [{ citations := .num 0, pubDate := .raw none, authors := some "A, B" },
             { citations := .num 0, pubDate := .raw none, authors := some "A, B" }],
    hasCitations := true, hasPubDate := false, hasAuthors := true,
    yearCol := none, yearsSinceCol := none, velocityCol := none }

/-- A one-record batch whose single author A has only one paper. -/
def frameLoneAuthor : Frame :=
  { rows := [{ citations := .num 0, pubDate := .raw none, authors := some "A" }],
    hasCitations := true, hasPubDate := false, hasAuthors := true,
    yearCol := none, yearsSinceCol := none, velocityCol := none }

/-- The empty record batch. -/
def emptyFrame : Frame :=
  { rows := [], hasCitations := false, hasPubDate := false, hasAuthors := false,
    yearCol := none, yearsSinceCol := none, velocityCol := none }

/-- The empty record batch of the similarity ranker. -/
def emptySimFrame : SimFrame :=
  { rows := [], hasAbstract := false, hasTitle := false, hasKeywords := false }

/-! ### Lemmas about the citation statistics -/

lemma countSat_le_length (l : List ℚ) : ∀ i, countSat l i ≤ l.length := by
  induction l with
  | nil => intro i; simp [countSat]
  | cons c cs ih =>
    intro i
    have := ih (i + 1)
    simp only [countSat, List.length_cons]
    split <;> omega

lemma sortDesc_sorted (l : List ℚ) : (sortDesc l).Sorted (· ≥ ·) :=
  List.sorted_insertionSort _ l

lemma sortDesc_perm (l : List ℚ) : List.Perm (sortDesc l) l :=
  List.perm_insertionSort _ l

lemma le_foldl_max (a : ℚ) (l : List ℚ) : a ≤ l.foldl max a := by
  induction l generalizing a with
  | nil => exact le_refl a
  | cons b t ih => exact le_trans (le_max_left a b) (ih (max a b))

lemma mem_le_foldl_max {l : List ℚ} {y : ℚ} (h : y ∈ l) : ∀ a, y ≤ l.foldl max a := by
  induction l with
  | nil => cases h
  | cons b t ih =>
    intro a
    rcases List.mem_cons.mp h with rfl | h2
    · exact le_trans (le_max_right a y) (le_foldl_max _ t)
    · exact ih h2 (max a b)

lemma le_listMax {l : List ℚ} {y : ℚ} (h : y ∈ l) : y ≤ listMax l := by
  cases l with
  | nil => cases h
  | cons x xs =>
    rcases List.mem_cons.mp h with rfl | h2
    · exact le_foldl_max y xs
    · exact mem_le_foldl_max h2 x

lemma countSat_bound (B : ℚ) :
    ∀ (l : List ℚ) (m : ℕ), (∀ x ∈ l, x ≤ B) →
      countSat l m = 0 ∨ ((countSat l m : ℚ) + m ≤ B + 1) := by
  intro l
  induction l with
  | nil => intro m _; exact Or.inl rfl
  | cons c cs ih =>
    intro m hmem
    have hc : c ≤ B := hmem c (List.mem_cons_self c cs)
    have htail : ∀ x ∈ cs, x ≤ B := fun x hx => hmem x (List.mem_cons_of_mem _ hx)
    simp only [countSat]
    by_cases hif : (m : ℚ) ≤ c
    · rw [if_pos hif]
      rcases ih (m + 1) htail with h0 | hle
      · right; rw [h0]; push_cast; linarith
      · right; push_cast at hle ⊢; linarith
    · rw [if_neg hif]
      rcases ih (m + 1) htail with h0 | hle
      · left; rw [h0]
      · right; push_cast at hle ⊢; linarith

lemma countSat_eq_zero_of_lt :
    ∀ (l : List ℚ) (m : ℕ), (∀ x ∈ l, x < (m : ℚ)) → countSat l m = 0 := by
  intro l
  induction l with
  | nil => intro m _; rfl
  | cons c cs ih =>
    intro m hmem
    have hc : c < (m : ℚ) := hmem c (List.mem_cons_self c cs)
    simp only [countSat]
    rw [if_neg (not_le.mpr hc), ih (m + 1) (fun x hx => by
      have := hmem x (List.mem_cons_of_mem _ hx)
      push_cast
      linarith)]

lemma hLoopAux_eq_countSat :
    ∀ (l : List ℚ), l.Sorted (· ≥ ·) → ∀ m : ℕ, hLoopAux l m = countSat l m := by
  intro l
  induction l with
  | nil => intro _ m; rfl
  | cons c cs ih =>
    intro hs m
    rw [List.sorted_cons] at hs
    obtain ⟨hall, hs'⟩ := hs
    simp only [hLoopAux, countSat]
    by_cases hif : (m : ℚ) ≤ c
    · rw [if_pos hif, if_pos hif, ih hs' (m + 1)]
    · rw [if_neg hif, if_neg hif,
        countSat_eq_zero_of_lt cs (m + 1) (fun x hx => by
          have hx2 : c ≥ x := hall x hx
          have hcm : c < (m : ℚ) := not_le.mp hif
          push_cast
          linarith)]

lemma citVec_frameOfCits (l : List ℚ) : citVec (frameOfCits l) = l := by
  induction l with
  | nil => rfl
  | cons q t ih =>
    show q :: citVec (frameOfCits t) = q :: t
    rw [ih]

lemma citVec_length (f : Frame) : (citVec f).length = f.rows.length := by
  simp [citVec]

/-! ### Claim theorems: citation statistics -/

/-- C10: for every citation vector, the h-index computed by
`calculate_metrics` in `data_processing.py` (early-exit loop over the
sorted-descending counts) equals the h-index computed by
`calculate_impact_metrics` in `app_functions.py` (count of 1-indexed ranks
whose sorted-descending count is at least the rank). -/
theorem c10_hindex_equiv (l : List ℚ) :
    (calculate_metrics l).h_index
      = (calculate_impact_metrics (frameOfCits l)).1.h_index := by
  by_cases h : l = []
  · subst h; rfl
  · have hne : l.isEmpty = false := by simpa [List.isEmpty_iff] using h
    have hne2 : (frameOfCits l).rows.isEmpty = false := by
      simp [frameOfCits, List.isEmpty_iff, List.map_eq_nil_iff, h]
    rw [calculate_metrics, calculate_impact_metrics, if_neg (by simp [hne]),
      if_neg (by simp [hne2]), citVec_frameOfCits]
    exact hLoopAux_eq_countSat (sortDesc l) (sortDesc_sorted l) 1

/-- C7: the h-index computed by `calculate_impact_metrics` never exceeds
`total_publications`, and on a non-empty batch of non-negative citation
values it never exceeds the maximum citation count. -/
theorem c7_hindex_bounds (f : Frame) :
    (calculate_impact_metrics f).1.h_index
        ≤ (calculate_impact_metrics f).1.total_publications
      ∧ (f.rows ≠ [] → (∀ q ∈ citVec f, 0 ≤ q) →
        ((calculate_impact_metrics f).1.h_index : ℚ) ≤ listMax (citVec f)) := by
  by_cases h : f.rows.isEmpty
  · rw [calculate_impact_metrics, if_pos h]
    exact ⟨le_refl 0, fun hne _ => absurd (List.isEmpty_iff.mp h) hne⟩
  · rw [calculate_impact_metrics, if_neg h]
    constructor
    · calc countSat (sortDesc (citVec f)) 1
          ≤ (sortDesc (citVec f)).length := countSat_le_length _ 1
        _ = (citVec f).length := (sortDesc_perm _).length_eq
        _ = f.rows.length := citVec_length f
    · intro hne hnn
      show ((countSat (sortDesc (citVec f)) 1 : ℕ) : ℚ) ≤ listMax (citVec f)
      have hB : ∀ x ∈ sortDesc (citVec f), x ≤ listMax (citVec f) :=
        fun x hx => le_listMax ((sortDesc_perm _).mem_iff.mp hx)
      rcases countSat_bound (listMax (citVec f)) (sortDesc (citVec f)) 1 hB with h0 | hle
      · rw [h0]
        have hvne : citVec f ≠ [] := by
          simp only [citVec, ne_eq, List.map_eq_nil_iff]
          exact hne
        obtain ⟨x, hx⟩ := List.exists_mem_of_ne_nil _ hvne
        have := hnn x hx
        have := le_listMax hx
        push_cast
        linarith
      · push_cast at hle ⊢
        linarith

/-- C7 witness: the bounds instantiated at the citation vector [3, 1]. -/
theorem c7_witness :
    (calculate_impact_metrics (frameOfCits [3, 1])).1.h_index
        ≤ (calculate_impact_metrics (frameOfCits [3, 1])).1.total_publications
      ∧ ((calculate_impact_metrics (frameOfCits [3, 1])).1.h_index : ℚ)
        ≤ listMax (citVec (frameOfCits [3, 1])) :=
  ⟨(c7_hindex_bounds (frameOfCits [3, 1])).1,
   (c7_hindex_bounds (frameOfCits [3, 1])).2 (by decide) (by decide)⟩

/-- C1 counterexample: on the citation vector [25, 8, 5, 3, 3] the g-index
computed by `calculate_impact_metrics` is not 2 (the cumulative sums
25, 33, 38, 41, 44 all reach their rank squares 1, 4, 9, 16, 25, so the
early exit never triggers; the spec's worked example mis-evaluates
`38 < 9` at rank 3). -/
theorem c1_counterexample :
    (calculate_impact_metrics (frameOfCits [25, 8, 5, 3, 3])).1.g_index ≠ 2 := by
  norm_num [calculate_impact_metrics, frameOfCits, citVec, coerceCell, sortDesc,
    List.insertionSort, List.orderedInsert, gIndexAux]

/-- C1 amended: on the citation vector [25, 8, 5, 3, 3] the g-index
computed by `calculate_impact_metrics` under the early-exit policy
equals 5. -/
theorem c1_amended_gindex :
    (calculate_impact_metrics (frameOfCits [25, 8, 5, 3, 3])).1.g_index = 5 := by
  norm_num [calculate_impact_metrics, frameOfCits, citVec, coerceCell, sortDesc,
    List.insertionSort, List.orderedInsert, gIndexAux]

/-! ### Lemmas about the author analyzer -/

lemma mem_orderedPairs_ne {α : Type} {l : List α} (hnd : l.Nodup) {p : α × α}
    (hp : p ∈ orderedPairs l) : p.1 ≠ p.2 := by
  induction l with
  | nil => cases hp
  | cons x xs ih =>
    rw [List.nodup_cons] at hnd
    rcases List.mem_append.mp hp with h | h
    · obtain ⟨y, hy, rfl⟩ := List.mem_map.mp h
      intro hxy
      apply hnd.1
      rw [show x = y from hxy]
      exact hy
    · exact ih hnd.2 h

lemma pairContrib_comm (l : List String) (a b : String) :
    pairContrib l a b = pairContrib l b a :=
  congrArg List.sum (List.map_congr_left (fun p _ => Nat.add_comm _ _))

lemma pairContrib_self_eq_zero {l : List String} (hnd : l.Nodup) (a : String) :
    pairContrib l a a = 0 := by
  apply List.sum_eq_zero
  intro x hx
  obtain ⟨p, hp, rfl⟩ := List.mem_map.mp hx
  have hne := mem_orderedPairs_ne hnd hp
  rw [if_neg (fun hc => hne (hc.1.trans hc.2.symm))]
  rfl

lemma collabCount_comm (f : Frame) (sig : List String) (a b : String) :
    collabCount f sig a b = collabCount f sig b a :=
  congrArg List.sum (List.map_congr_left (fun r _ => pairContrib_comm _ a b))

lemma collabCount_self (f : Frame) (sig : List String)
    (hnd : ∀ r ∈ f.rows, (rawTokens r).Nodup) (a : String) :
    collabCount f sig a a = 0 := by
  apply List.sum_eq_zero
  intro x hx
  obtain ⟨r, hr, rfl⟩ := List.mem_map.mp hx
  exact pairContrib_self_eq_zero ((hnd r hr).filter _) a

lemma matEntry_map (sig : List String) (c : String → String → ℕ) (i j : ℕ) :
    matEntry (sig.map (fun a => sig.map (fun b => c a b))) i j
      = ((sig[i]?).bind (fun a => (sig[j]?).map (fun b => c a b))).getD 0 := by
  unfold matEntry
  simp only [List.getD_eq_getElem?_getD, List.getElem?_map]
  cases hi : sig[i]? with
  | none => simp
  | some a =>
    simp only [Option.map_some', Option.getD_some, Option.bind_some,
      List.getElem?_map]
    cases hj : sig[j]? <;> simp

lemma collabOf_spec (f : Frame) : collabOf f = [] ∨
    ∃ sig : List String, collabOf f
      = sig.map (fun a => sig.map (fun b => collabCount f sig a b)) := by
  unfold collabOf analyze_authors
  by_cases h1 : (f.rows.isEmpty || !f.hasAuthors) = true
  · rw [if_pos h1]
    exact Or.inl rfl
  · rw [if_neg h1]
    by_cases h2 : (authorMetrics f).isEmpty = true
    · rw [if_pos h2]
      exact Or.inl rfl
    · rw [if_neg h2]
      exact Or.inr ⟨_, rfl⟩

/-! ### Claim theorems: author analyzer -/

/-- C3 counterexample: on the batch whose records credit "A, A, B" and
"A, B" (author A repeated inside the first record's list), the
collaboration matrix returned by `analyze_authors` has diagonal entry
(0, 0) equal to 2, not 0: the claim that the diagonal is always zero, even
when a name occurs more than once within a single record's author list,
is false on the code. -/
theorem c3_counterexample :
    (analyze_authors frameDupAuthor).map
        (fun r => matEntry r.author_collaborations 0 0) = .ok 2
      ∧ (Except.ok 2 : Except String ℕ) ≠ .ok 0 :=
  ⟨by decide, by decide⟩

/-- C3 amended: the collaboration matrix returned by `analyze_authors` is
always symmetric, and its diagonal is all zero provided no record's author
list contains a repeated (trimmed) author name; when a significant author
is repeated within one record's list, that author's diagonal entry is
incremented instead. -/
theorem c3_amended_matrix (f : Frame) :
    (∀ i j, matEntry (collabOf f) i j = matEntry (collabOf f) j i)
      ∧ ((∀ r ∈ f.rows, (rawTokens r).Nodup) →
        ∀ i, matEntry (collabOf f) i i = 0) := by
  rcases collabOf_spec f with h | ⟨sig, h⟩
  · rw [h]
    constructor
    · intro i j
      simp [matEntry]
    · intro _ i
      simp [matEntry]
  · rw [h]
    constructor
    · intro i j
      rw [matEntry_map, matEntry_map]
      cases sig[i]? <;> cases sig[j]? <;> simp [collabCount_comm f sig]
    · intro hnd i
      rw [matEntry_map]
      cases sig[i]? <;> simp [collabCount_self f sig hnd]

/-- C3 witness: on the batch crediting "A, B" twice (no repeated name
inside a record), the matrix is symmetric at (0, 1)/(1, 0) and has a zero
diagonal entry at (0, 0). -/
theorem c3_witness :
    matEntry (collabOf frameTwoAuthors) 0 1 = matEntry (collabOf frameTwoAuthors) 1 0
      ∧ matEntry (collabOf frameTwoAuthors) 0 0 = 0 :=
  ⟨(c3_amended_matrix frameTwoAuthors).1 0 1,
   (c3_amended_matrix frameTwoAuthors).2 (by decide) 0⟩

/-- C4: on a non-empty batch with an `authors` column in which no author is
credited on 2 or more records, `analyze_authors` raises
`KeyError: 'paper_count'` (the empty `author_impact` DataFrame has no
columns), instead of returning empty tables as the claim states. -/
theorem c4_keyerror :
    analyze_authors frameLoneAuthor = .error "KeyError: paper_count" := by
  decide

/-! ### Lemmas about the frame mutations -/

lemma map_eq_self_forall {α : Type} {f : α → α} {l : List α} (h : l.map f = l) :
    ∀ x ∈ l, f x = x := by
  induction l with
  | nil => intro x hx; cases hx
  | cons a t ih =>
    simp only [List.map_cons, List.cons.injEq] at h
    intro x hx
    rcases List.mem_cons.mp hx with rfl | hx2
    · exact h.1
    · exact ih h.2 x hx2

lemma map_eq_self_of_forall {α : Type} {f : α → α} {l : List α}
    (h : ∀ x ∈ l, f x = x) : l.map f = l := by
  induction l with
  | nil => rfl
  | cons a t ih =>
    rw [List.map_cons, h a (List.mem_cons_self a t),
      ih (fun x hx => h x (List.mem_cons_of_mem _ hx))]

lemma coerceFrame_eq_self_iff (f : Frame) (hne : f.rows ≠ []) :
    coerceFrame f = f
      ↔ (f.hasCitations = true ∧ ∀ r ∈ f.rows, ∃ q, r.citations = CitCell.num q) := by
  constructor
  · intro h
    have hc : f.hasCitations = true := (congrArg Frame.hasCitations h).symm ▸ rfl
    have hrows := congrArg Frame.rows h
    simp only [coerceFrame] at hrows
    refine ⟨hc, fun r hr => ?_⟩
    have := map_eq_self_forall hrows r hr
    exact ⟨_, (congrArg Row.citations this).symm⟩
  · rintro ⟨hc, hall⟩
    rcases f with ⟨rows, fc, fp, fa, fy, fys, fv⟩
    simp only at hc
    subst hc
    simp only [coerceFrame, Frame.mk.injEq, and_true, true_and]
    apply map_eq_self_of_forall
    intro r hr
    obtain ⟨q, hq⟩ := hall r hr
    rcases r with ⟨cit, pd, au⟩
    simp only at hq
    subst hq
    rfl

lemma coerceFrame_ne_self_of_missing (f : Frame) (hc : f.hasCitations = false) :
    coerceFrame f ≠ f := by
  intro h
  have := congrArg Frame.hasCitations h
  rw [coerceFrame] at this
  simp only at this
  rw [hc] at this
  cases this

lemma coerceDates_eq_self_iff (f : Frame) :
    coerceDates f = f.rows ↔ ∀ r ∈ f.rows, ∃ y, r.pubDate = DateCell.ts y := by
  constructor
  · intro h r hr
    have := map_eq_self_forall h r hr
    exact ⟨_, (congrArg Row.pubDate this).symm⟩
  · intro hall
    apply map_eq_self_of_forall
    intro r hr
    obtain ⟨y, hy⟩ := hall r hr
    rcases r with ⟨cit, pd, au⟩
    simp only at hy
    subst hy
    rfl

lemma frame_updErr_eq_iff (f : Frame) :
    ({ f with rows := coerceDates f, yearCol := some (yearColOf f) } = f)
      ↔ (coerceDates f = f.rows ∧ some (yearColOf f) = f.yearCol) := by
  rcases f with ⟨rows, fc, fp, fa, fy, fys, fv⟩
  simp [Frame.mk.injEq]

lemma frame_updOk_eq_iff (cy : Int) (f : Frame) :
    ({ f with rows := coerceDates f, yearCol := some (yearColOf f), yearsSinceCol := some (yearsSinceColOf cy f), velocityCol := some (velocityColOf cy f) } = f)
      ↔ (coerceDates f = f.rows ∧ some (yearColOf f) = f.yearCol
          ∧ some (yearsSinceColOf cy f) = f.yearsSinceCol
          ∧ some (velocityColOf cy f) = f.velocityCol) := by
  rcases f with ⟨rows, fc, fp, fa, fy, fys, fv⟩
  simp [Frame.mk.injEq]

/-! ### Claim theorems: frame effects -/

/-- C5 counterexample: `calculate_impact_metrics` does not leave its input
unchanged: on a one-row batch whose citation cell is non-numeric, the call
rewrites the cell to numeric 0 inside the input DataFrame. -/
theorem c5_counterexample : (calculate_impact_metrics frameNonNum).2 ≠ frameNonNum := by
  decide

/-- C5 amended: neither function leaves its input unchanged in general.
Both preserve the row count; `calculate_impact_metrics` preserves the
`publication_date` and `authors` cells and leaves the input unchanged
exactly when the batch is empty, or the `citations` column exists and is
already fully numeric (otherwise it writes the coerced column into the
input, creating it when absent).  `analyze_publications_by_time` preserves
the `citations` and `authors` cells, but coerces every `publication_date`
cell to a datetime in place and overwrites the `year` column (and, on the
non-raising path, the `years_since_publication` and `citation_velocity`
columns) with freshly computed values; it leaves the input unchanged
exactly when the batch is empty, or there is no `publication_date` column,
or every date cell is already a datetime and each column it writes already
holds exactly the values the call would write (for the velocity column,
the values computed at this call's current year). -/
theorem c5_amended_mutation (cy : Int) (f : Frame) :
    ((calculate_impact_metrics f).2.rows.map (fun r => (r.pubDate, r.authors))
        = f.rows.map (fun r => (r.pubDate, r.authors)))
      ∧ ((calculate_impact_metrics f).2 = f
          ↔ (f.rows = [] ∨ (f.hasCitations = true
              ∧ ∀ r ∈ f.rows, ∃ q, r.citations = CitCell.num q)))
      ∧ ((analyze_publications_by_time cy f).2.rows.map
            (fun r => (r.citations, r.authors))
          = f.rows.map (fun r => (r.citations, r.authors)))
      ∧ ((analyze_publications_by_time cy f).2 = f
          ↔ (f.rows = [] ∨ f.hasPubDate = false
              ∨ ((∀ r ∈ f.rows, ∃ y, r.pubDate = DateCell.ts y)
                  ∧ f.yearCol = some (yearColOf f)
                  ∧ (f.hasCitations = false
                      ∨ (f.yearsSinceCol = some (yearsSinceColOf cy f)
                          ∧ f.velocityCol = some (velocityColOf cy f)))))) := by
  have hcim : ∀ (g : Frame), (calculate_impact_metrics g).2
      = if g.rows.isEmpty then g else coerceFrame g := by
    intro g
    by_cases hg : g.rows.isEmpty
    · rw [calculate_impact_metrics, if_pos hg, if_pos hg]
    · rw [calculate_impact_metrics, if_neg hg, if_neg hg]
  refine ⟨?_, ?_, ?_, ?_⟩
  · rw [hcim]
    by_cases hg : f.rows.isEmpty
    · rw [if_pos hg]
    · rw [if_neg hg]
      simp only [coerceFrame, List.map_map]
      exact List.map_congr_left (fun r _ => rfl)
  · rw [hcim]
    by_cases hg : f.rows.isEmpty
    · rw [if_pos hg]
      simp [List.isEmpty_iff.mp hg]
    · rw [if_neg hg]
      have hne : f.rows ≠ [] := fun hc => hg (List.isEmpty_iff.mpr hc)
      rw [coerceFrame_eq_self_iff f hne]
      constructor
      · exact Or.inr
      · rintro (hc | hc)
        · exact absurd hc hne
        · exact hc
  · rw [analyze_publications_by_time]
    by_cases hb1 : (f.rows.isEmpty || !f.hasPubDate) = true
    · rw [if_pos hb1]
    · rw [if_neg hb1]
      by_cases hb2 : (!f.hasCitations) = true
      · rw [if_pos hb2]
        show (coerceDates f).map (fun r => (r.citations, r.authors))
          = f.rows.map (fun r => (r.citations, r.authors))
        simp only [coerceDates, List.map_map]
        exact List.map_congr_left (fun r _ => rfl)
      · rw [if_neg hb2]
        show (coerceDates f).map (fun r => (r.citations, r.authors))
          = f.rows.map (fun r => (r.citations, r.authors))
        simp only [coerceDates, List.map_map]
        exact List.map_congr_left (fun r _ => rfl)
  · rw [analyze_publications_by_time]
    by_cases hb1 : (f.rows.isEmpty || !f.hasPubDate) = true
    · rw [if_pos hb1]
      have : f.rows = [] ∨ f.hasPubDate = false := by
        rcases Bool.or_eq_true_iff.mp hb1 with h | h
        · exact Or.inl (List.isEmpty_iff.mp h)
        · right; simpa using h
      constructor
      · intro _
        rcases this with h | h
        · exact Or.inl h
        · exact Or.inr (Or.inl h)
      · intro _
        rfl
    · rw [if_neg hb1]
      have hb1' : f.rows.isEmpty = false ∧ f.hasPubDate = true := by
        simpa [not_or] using hb1
      have hrows : f.rows ≠ [] := by
        intro hc
        rw [hc] at hb1'
        simp at hb1'
      have hpd : f.hasPubDate = true := hb1'.2
      by_cases hb2 : (!f.hasCitations) = true
      · rw [if_pos hb2]
        show ({ f with rows := coerceDates f, yearCol := some (yearColOf f) } = f) ↔ _
        rw [frame_updErr_eq_iff, coerceDates_eq_self_iff]
        have hcf : f.hasCitations = false := by simpa using hb2
        constructor
        · rintro ⟨hdates, hyear⟩
          exact Or.inr (Or.inr ⟨hdates, hyear.symm, Or.inl hcf⟩)
        · rintro (hc | hc | ⟨hdates, hyear, _⟩)
          · exact absurd hc hrows
          · rw [hpd] at hc; cases hc
          · exact ⟨hdates, hyear.symm⟩
      · rw [if_neg hb2]
        show ({ f with rows := coerceDates f, yearCol := some (yearColOf f), yearsSinceCol := some (yearsSinceColOf cy f), velocityCol := some (velocityColOf cy f) } = f) ↔ _
        rw [frame_updOk_eq_iff, coerceDates_eq_self_iff]
        have hcf : f.hasCitations = true := by simpa using hb2
        constructor
        · rintro ⟨hdates, hyear, hys, hv⟩
          exact Or.inr (Or.inr ⟨hdates, hyear.symm, Or.inr ⟨hys.symm, hv.symm⟩⟩)
        · rintro (hc | hc | ⟨hdates, hyear, hrest⟩)
          · exact absurd hc hrows
          · rw [hpd] at hc; cases hc
          · rcases hrest with hc | ⟨hys, hv⟩
            · rw [hcf] at hc; cases hc
            · exact ⟨hdates, hyear.symm, hys.symm, hv.symm⟩

/-! ### Lemmas about the temporal aggregator -/

lemma mem_dedupFirstAux {α : Type} [DecidableEq α] {a : α} :
    ∀ {seen l : List α}, a ∈ dedupFirstAux seen l → a ∈ l ∧ a ∉ seen := by
  intro seen l
  induction l generalizing seen with
  | nil => intro h; cases h
  | cons x xs ih =>
    intro h
    simp only [dedupFirstAux] at h
    by_cases hx : x ∈ seen
    · rw [if_pos hx] at h
      obtain ⟨h1, h2⟩ := ih h
      exact ⟨List.mem_cons_of_mem _ h1, h2⟩
    · rw [if_neg hx] at h
      rcases List.mem_cons.mp h with rfl | h2
      · exact ⟨List.mem_cons_self a xs, hx⟩
      · obtain ⟨h1, h3⟩ := ih h2
        exact ⟨List.mem_cons_of_mem _ h1,
          fun hs => h3 (List.mem_cons_of_mem _ hs)⟩

lemma countEq_cons_ne {y x : Int} (xs : List Int) (h : y ≠ x) :
    countEq y (x :: xs) = countEq y xs := by
  simp only [countEq, List.countP_cons]
  rw [if_neg (by simpa using fun hc => h hc.symm)]
  omega

lemma countEq_cons_self (x : Int) (xs : List Int) :
    countEq x (x :: xs) = countEq x xs + 1 := by
  simp [countEq, List.countP_cons]

lemma countEq_filter_split (x : Int) (seen : List Int) (hx : x ∉ seen) :
    ∀ xs : List Int,
      countEq x xs + (xs.filter (fun z => decide (z ∉ x :: seen))).length
        = (xs.filter (fun z => decide (z ∉ seen))).length := by
  intro xs
  induction xs with
  | nil => rfl
  | cons z t ih =>
    by_cases hz : z = x
    · subst hz
      rw [countEq_cons_self]
      rw [List.filter_cons, if_neg (by simp), List.filter_cons,
        if_pos (by simpa using hx)]
      simp only [List.length_cons]
      omega
    · rw [countEq_cons_ne t (fun hc => hz hc.symm)]
      by_cases hs : z ∈ seen
      · rw [List.filter_cons, if_neg (by simp [hs]), List.filter_cons,
          if_neg (by simp [hs])]
        exact ih
      · rw [List.filter_cons, if_pos (by simp [hz, hs]), List.filter_cons,
          if_pos (by simpa using hs)]
        simp only [List.length_cons]
        omega

lemma sum_count_dedupFirstAux :
    ∀ (l seen : List Int),
      ((dedupFirstAux seen l).map (fun y => countEq y l)).sum
        = (l.filter (fun z => decide (z ∉ seen))).length := by
  intro l
  induction l with
  | nil => intro seen; rfl
  | cons x xs ih =>
    intro seen
    by_cases hx : x ∈ seen
    · simp only [dedupFirstAux, if_pos hx]
      rw [List.map_congr_left (fun y hy =>
        countEq_cons_ne xs (fun hc => (mem_dedupFirstAux hy).2 (hc ▸ hx)))]
      rw [ih seen, List.filter_cons, if_neg (by simp [hx])]
    · simp only [dedupFirstAux, if_neg hx]
      rw [List.map_cons, List.sum_cons, countEq_cons_self]
      rw [List.map_congr_left (fun y hy =>
        countEq_cons_ne xs (fun hc => (mem_dedupFirstAux hy).2
          (hc ▸ List.mem_cons_self x seen)))]
      rw [ih (x :: seen), List.filter_cons, if_pos (by simpa using hx)]
      simp only [List.length_cons]
      have := countEq_filter_split x seen hx xs
      omega

lemma sum_counts_groupKeys (ys : List Int) :
    ((groupKeys ys).map (fun y => countEq y ys)).sum = ys.length := by
  unfold groupKeys sortAscZ
  rw [((List.perm_insertionSort _ (dedupFirst ys)).map
    (fun y => countEq y ys)).sum_eq]
  have := sum_count_dedupFirstAux ys []
  simpa [dedupFirst] using this

/-! ### Claim theorems: temporal aggregation -/

/-- C6: whenever `analyze_publications_by_time` produces its per-year
publication counts (i.e. on every batch on which it does not raise), their
sum equals the number of records with a parseable `publication_date`
(records without one are dropped from the year groups), while
`calculate_impact_metrics` counts every record in `total_publications`. -/
theorem c6_time_totals (cy : Int) (f : Frame)
    (h : f.hasCitations = true ∨ f.hasPubDate = false ∨ f.rows = []) :
    ((pubsByYearOf cy f).map (fun g => g.2)).sum = parseableCount f
      ∧ (calculate_impact_metrics f).1.total_publications = f.rows.length := by
  constructor
  · unfold pubsByYearOf analyze_publications_by_time
    by_cases hb1 : (f.rows.isEmpty || !f.hasPubDate) = true
    · rw [if_pos hb1]
      show (0 : ℕ) = parseableCount f
      rcases Bool.or_eq_true_iff.mp hb1 with hb | hb
      · have hr : f.rows = [] := List.isEmpty_iff.mp hb
        simp [parseableCount, yearsOf, hr]
      · have hp : f.hasPubDate = false := by simpa using hb
        simp [parseableCount, hp]
    · rw [if_neg hb1]
      have hb1' : f.rows.isEmpty = false ∧ f.hasPubDate = true := by
        simpa [not_or] using hb1
      by_cases hb2 : (!f.hasCitations) = true
      · exfalso
        have hcf : f.hasCitations = false := by simpa using hb2
        rcases h with hc | hc | hc
        · rw [hcf] at hc; cases hc
        · rw [hb1'.2] at hc; cases hc
        · rw [hc] at hb1'; simp at hb1'
      · rw [if_neg hb2]
        show ((timeResultOf cy f).publications_by_year.map (fun g => g.2)).sum
          = parseableCount f
        unfold timeResultOf
        simp only [List.map_map]
        show (List.map (fun y => countEq y (yearsOf f)) (groupKeys (yearsOf f))).sum
          = parseableCount f
        rw [sum_counts_groupKeys, parseableCount, if_pos hb1'.2]
  · by_cases hg : f.rows.isEmpty
    · rw [calculate_impact_metrics, if_pos hg]
      show 0 = f.rows.length
      rw [List.isEmpty_iff.mp hg]
      rfl
    · rw [calculate_impact_metrics, if_neg hg]

/-- C6 witness: the totals instantiated on a one-record batch with a
parseable 2020 date and a citations column. -/
theorem c6_witness :
    ((pubsByYearOf 2024 frameOneDated).map (fun g => g.2)).sum
        = parseableCount frameOneDated
      ∧ (calculate_impact_metrics frameOneDated).1.total_publications
        = frameOneDated.rows.length :=
  c6_time_totals 2024 frameOneDated (Or.inl (by decide))

/-! ### Claim theorems: empty input and similarity ranking -/

/-- C8: on the empty record batch, `calculate_impact_metrics` returns the
all-zero result with an empty percentile list and leaves the frame alone,
and every embedded aggregate engine function
(`analyze_publications_by_time`, `analyze_authors`, `calculate_metrics`,
`find_similar_papers`) returns its well-defined empty result instead of
raising. -/
theorem c8_empty_batch (f : Frame) (sf : SimFrame) (cy : Int) (t n : ℕ)
    (hf : f.rows = []) (hsf : sf.rows = []) :
    (calculate_impact_metrics f).1 = zeroMetrics
      ∧ (calculate_impact_metrics f).2 = f
      ∧ analyze_publications_by_time cy f = (.ok emptyTimeResult, f)
      ∧ analyze_authors f = .ok ⟨[], [], []⟩
      ∧ calculate_metrics [] = zeroBasicMetrics
      ∧ find_similar_papers sf t n = .ok [] := by
  have hemp : f.rows.isEmpty = true := List.isEmpty_iff.mpr hf
  refine ⟨?_, ?_, ?_, ?_, rfl, ?_⟩
  · rw [calculate_impact_metrics, if_pos hemp]
  · rw [calculate_impact_metrics, if_pos hemp]
  · rw [analyze_publications_by_time, if_pos (by simp [hemp])]
  · rw [analyze_authors, if_pos (by simp [hemp])]
  · rw [find_similar_papers, if_pos (by simp [hsf])]

/-- C8 witness: the empty results at a concrete empty batch. -/
theorem c8_witness :
    (calculate_impact_metrics emptyFrame).1 = zeroMetrics
      ∧ (calculate_impact_metrics emptyFrame).2 = emptyFrame
      ∧ analyze_publications_by_time 2024 emptyFrame = (.ok emptyTimeResult, emptyFrame)
      ∧ analyze_authors emptyFrame = .ok ⟨[], [], []⟩
      ∧ calculate_metrics [] = zeroBasicMetrics
      ∧ find_similar_papers emptySimFrame 0 5 = .ok [] :=
  c8_empty_batch emptyFrame emptySimFrame 2024 0 5 (by decide) (by decide)

/-- C2: on the three-record batch whose rows 0 and 1 carry identical text
("aa", "aa", "bb"), target index 0 and n = 2 — a batch with at least 2
records and a usable text feature — `find_similar_papers` returns the rows
at positions 0 and 2: the target row itself is among the results.  The
similarity row is [1, 1, 0]; the stable ascending argsort is [2, 0, 1],
reversed [1, 0, 2], and dropping the first position discards the duplicate
row 1 instead of the target, contradicting the code's own comment
"(excluding the target paper itself)". -/
theorem c2_target_included :
    find_similar_papers simFrameDup 0 2 = .ok [0, 2]
      ∧ (find_similar_papers simFrameDup 0 2).map (fun ixs => decide (0 ∈ ixs))
        = .ok true :=
  ⟨by decide, by decide⟩

/-! ### Lemmas about the percentile computation -/

lemma sortAsc_sorted (l : List ℚ) : (sortAsc l).Sorted (· ≤ ·) :=
  List.sorted_insertionSort _ l

lemma sortAsc_length (l : List ℚ) : (sortAsc l).length = l.length :=
  (List.perm_insertionSort _ l).length_eq

lemma sorted_getD_mono {s : List ℚ} (hs : s.Sorted (· ≤ ·)) {i j : ℕ}
    (hij : i ≤ j) (hj : j < s.length) : s.getD i 0 ≤ s.getD j 0 := by
  have hi : i < s.length := lt_of_le_of_lt hij hj
  simp only [List.getD_eq_getElem?_getD, List.getElem?_eq_getElem hi,
    List.getElem?_eq_getElem hj, Option.getD_some]
  rcases eq_or_lt_of_le hij with rfl | hlt
  · exact le_refl _
  · have := @List.Sorted.rel_get_of_lt ℚ (· ≤ ·) s hs ⟨i, hi⟩ ⟨j, hj⟩ hlt
    simpa [List.get_eq_getElem] using this

lemma interpAt_mono {s : List ℚ} (hs : s.Sorted (· ≤ ·)) (hne : s ≠ [])
    {pos₁ pos₂ : ℚ} (hp0 : 0 ≤ pos₁) (hp12 : pos₁ ≤ pos₂)
    (hend : pos₂ ≤ (s.length : ℚ) - 1) :
    interpAt s pos₁ ≤ interpAt s pos₂ := by
  have hn : 1 ≤ s.length := List.length_pos.mpr hne
  have hp0' : 0 ≤ pos₂ := le_trans hp0 hp12
  have hfl₁ : (0 : ℤ) ≤ Int.floor pos₁ := Int.floor_nonneg.mpr hp0
  have hfl₂ : (0 : ℤ) ≤ Int.floor pos₂ := Int.floor_nonneg.mpr hp0'
  have hc₁ : (((Int.floor pos₁).toNat : ℕ) : ℚ) ≤ pos₁ := by
    have h1 : (((Int.floor pos₁).toNat : ℤ) : ℚ) ≤ pos₁ := by
      rw [Int.toNat_of_nonneg hfl₁]
      exact Int.floor_le pos₁
    exact_mod_cast h1
  have hc₂ : (((Int.floor pos₂).toNat : ℕ) : ℚ) ≤ pos₂ := by
    have h1 : (((Int.floor pos₂).toNat : ℤ) : ℚ) ≤ pos₂ := by
      rw [Int.toNat_of_nonneg hfl₂]
      exact Int.floor_le pos₂
    exact_mod_cast h1
  have hc₁' : pos₁ < (((Int.floor pos₁).toNat : ℕ) : ℚ) + 1 := by
    have h1 : pos₁ < (((Int.floor pos₁).toNat : ℤ) : ℚ) + 1 := by
      rw [Int.toNat_of_nonneg hfl₁]
      exact Int.lt_floor_add_one pos₁
    exact_mod_cast h1
  set i₁ := (Int.floor pos₁).toNat with hi₁def
  set i₂ := (Int.floor pos₂).toNat with hi₂def
  have hi₁n : i₁ < s.length := by
    have hq : (i₁ : ℚ) < (s.length : ℚ) := by
      calc (i₁ : ℚ) ≤ pos₁ := hc₁
        _ ≤ pos₂ := hp12
        _ ≤ (s.length : ℚ) - 1 := hend
        _ < (s.length : ℚ) := by linarith
    exact_mod_cast hq
  have hi₂n : i₂ < s.length := by
    have hq : (i₂ : ℚ) < (s.length : ℚ) := by
      calc (i₂ : ℚ) ≤ pos₂ := hc₂
        _ ≤ (s.length : ℚ) - 1 := hend
        _ < (s.length : ℚ) := by linarith
    exact_mod_cast hq
  have hi₁₂ : i₁ ≤ i₂ := Int.toNat_le_toNat (Int.floor_mono hp12)
  have hmin₁ : min i₁ (s.length - 1) = i₁ := min_eq_left (by omega)
  have hmin₂ : min i₂ (s.length - 1) = i₂ := min_eq_left (by omega)
  have hminsucc₁ : min (i₁ + 1) (s.length - 1) < s.length := by
    have : s.length - 1 < s.length := by omega
    exact lt_of_le_of_lt (min_le_right _ _) this
  have hminsucc₂ : min (i₂ + 1) (s.length - 1) < s.length := by
    have : s.length - 1 < s.length := by omega
    exact lt_of_le_of_lt (min_le_right _ _) this
  have hlo_hi₁ : s.getD (min i₁ (s.length - 1)) 0
      ≤ s.getD (min (i₁ + 1) (s.length - 1)) 0 := by
    apply sorted_getD_mono hs _ hminsucc₁
    rw [hmin₁]
    exact le_min (by omega) (by omega)
  have hlo_hi₂ : s.getD (min i₂ (s.length - 1)) 0
      ≤ s.getD (min (i₂ + 1) (s.length - 1)) 0 := by
    apply sorted_getD_mono hs _ hminsucc₂
    rw [hmin₂]
    exact le_min (by omega) (by omega)
  simp only [interpAt, ← hi₁def, ← hi₂def]
  rcases eq_or_lt_of_le hi₁₂ with heq | hlt
  · rw [← heq]
    have hprod : (pos₂ - pos₁) * (s.getD (min (i₁ + 1) (s.length - 1)) 0
        - s.getD (min i₁ (s.length - 1)) 0) ≥ 0 :=
      mul_nonneg (by linarith) (by linarith)
    nlinarith [hprod]
  · have hstep : i₁ + 1 ≤ i₂ := hlt
    have hA : s.getD (min i₁ (s.length - 1)) 0
        + (pos₁ - (i₁ : ℚ)) * (s.getD (min (i₁ + 1) (s.length - 1)) 0
          - s.getD (min i₁ (s.length - 1)) 0)
        ≤ s.getD (min (i₁ + 1) (s.length - 1)) 0 := by
      nlinarith [mul_nonneg (by linarith : (0 : ℚ) ≤ 1 - (pos₁ - (i₁ : ℚ)))
        (by linarith : (0 : ℚ) ≤ s.getD (min (i₁ + 1) (s.length - 1)) 0
          - s.getD (min i₁ (s.length - 1)) 0)]
    have hB : s.getD (min (i₁ + 1) (s.length - 1)) 0
        ≤ s.getD (min i₂ (s.length - 1)) 0 := by
      rw [hmin₂]
      exact sorted_getD_mono hs (le_trans (min_le_left _ _) hstep) hi₂n
    have hC : s.getD (min i₂ (s.length - 1)) 0
        ≤ s.getD (min i₂ (s.length - 1)) 0
          + (pos₂ - (i₂ : ℚ)) * (s.getD (min (i₂ + 1) (s.length - 1)) 0
            - s.getD (min i₂ (s.length - 1)) 0) := by
      nlinarith [mul_nonneg (by linarith : (0 : ℚ) ≤ pos₂ - (i₂ : ℚ))
        (by linarith : (0 : ℚ) ≤ s.getD (min (i₂ + 1) (s.length - 1)) 0
          - s.getD (min i₂ (s.length - 1)) 0)]
    linarith

lemma npPercentile_mono (l : List ℚ) (hl : l ≠ []) (p₁ p₂ : ℚ)
    (h0 : 0 ≤ p₁) (h12 : p₁ ≤ p₂) (h100 : p₂ ≤ 100) :
    npPercentile l p₁ ≤ npPercentile l p₂ := by
  have hn : 1 ≤ l.length := List.length_pos.mpr hl
  have hn' : (1 : ℚ) ≤ (l.length : ℚ) := by exact_mod_cast hn
  have hne : sortAsc l ≠ [] := by
    intro hc
    apply hl
    have := sortAsc_length l
    rw [hc] at this
    exact List.length_eq_zero.mp this.symm
  unfold npPercentile
  apply interpAt_mono (sortAsc_sorted l) hne
  · apply div_nonneg (mul_nonneg h0 (by linarith)) (by norm_num)
  · linarith [mul_le_mul_of_nonneg_right h12
      (by linarith : (0:ℚ) ≤ (l.length : ℚ) - 1)]
  · rw [sortAsc_length]
    rw [div_le_iff (by norm_num : (0:ℚ) < 100)]
    nlinarith

lemma cim_percentiles (f : Frame) (h : ¬f.rows.isEmpty = true) :
    (calculate_impact_metrics f).1.citation_percentiles
      = percList.map (fun p => (p, npPercentile (citVec f) p)) := by
  rw [calculate_impact_metrics, if_neg h]

lemma percList_bounds : ∀ p ∈ percList, 0 ≤ p ∧ p ≤ 100 := by
  intro p hp
  fin_cases hp <;> norm_num

/-! ### Claim theorems: percentile monotonicity -/

/-- C9: for every non-empty batch, the percentile values reported by
`calculate_impact_metrics` are monotone in the percentile: whenever the
reported list pairs `p₁` with `v₁` and `p₂` with `v₂` and `p₁ < p₂`,
then `v₁ ≤ v₂`. -/
theorem c9_percentile_mono (f : Frame) (p₁ v₁ p₂ v₂ : ℚ) (hne : f.rows ≠ [])
    (h₁ : (p₁, v₁) ∈ (calculate_impact_metrics f).1.citation_percentiles)
    (h₂ : (p₂, v₂) ∈ (calculate_impact_metrics f).1.citation_percentiles)
    (hlt : p₁ < p₂) : v₁ ≤ v₂ := by
  have hemp : ¬f.rows.isEmpty = true := by
    simpa [List.isEmpty_iff] using hne
  rw [cim_percentiles f hemp] at h₁ h₂
  obtain ⟨q₁, hq₁mem, hq₁eq⟩ := List.mem_map.mp h₁
  obtain ⟨q₂, hq₂mem, hq₂eq⟩ := List.mem_map.mp h₂
  obtain ⟨rfl, rfl⟩ := Prod.mk.injEq _ _ _ _ ▸ hq₁eq
  obtain ⟨rfl, rfl⟩ := Prod.mk.injEq _ _ _ _ ▸ hq₂eq
  have hvne : citVec f ≠ [] := by
    simp only [citVec, ne_eq, List.map_eq_nil_iff]
    exact hne
  exact npPercentile_mono (citVec f) hvne _ _ (percList_bounds _ hq₁mem).1
    (le_of_lt hlt) (percList_bounds _ hq₂mem).2

/-- C9 witness: on the one-record batch with 5 citations, the reported
value for percentile 10 (namely 5) is at most the value for percentile 25
(also 5). -/
theorem c9_witness : (5 : ℚ) ≤ 5 :=
  c9_percentile_mono (frameOfCits [5]) 10 5 25 5 (by decide)
    (by
      rw [cim_percentiles _ (by decide), citVec_frameOfCits]
      norm_num [npPercentile, interpAt, sortAsc, List.insertionSort,
        List.orderedInsert, percList])
    (by
      rw [cim_percentiles _ (by decide), citVec_frameOfCits]
      norm_num [npPercentile, interpAt, sortAsc, List.insertionSort,
        List.orderedInsert, percList])
    (by norm_num)

end ImpactSpark
